/-
Verification of the MicroPython Waveshare 2.7" e-paper driver
(`waveshare2in7.py`) against its natural-language specification.

The driver's byte buffers (`bytearray`) are modelled either as `List Nat`
(when lengths and slicing matter) or as functions `Nat → Nat` from byte
index to byte value (when only indexed reads/writes matter).  Bus traffic
(the SPI writes and the chip-select / data-command line changes performed
by `_command`, `_data` and `_data_batch`) is modelled as a list of events.
All definitions are transcribed from the Python source; theorems relate
them to the specified properties.
-/
import Mathlib

set_option linter.unusedVariables false

namespace Waveshare

/-! ## Basic constants (from the module header) -/

/-- `EPD_WIDTH = const(176)` — native panel width. -/
def EPD_WIDTH : Nat := 176

/-- `EPD_HEIGHT = const(264)` — native panel height. -/
def EPD_HEIGHT : Nat := 264

/-- `BUSY = const(0)` — busy-pin level meaning "busy" (0=busy, 1=idle). -/
def BUSY : Nat := 0

/-- `SPI_BATCH_SIZE = const(64)` — batch size for SPI transfers. -/
def SPI_BATCH_SIZE : Nat := 64

/-! ## Bit-level buffer accessors

`get_logical_pixel` / `set_physical_pixel` from `_rotate_buffer_90_cw`
and `_rotate_buffer_270_cw`, with the strides (`self.width`, `EPD_WIDTH`)
as parameters.  A buffer is a function from byte index to byte value. -/

/-- Bit of the packed buffer at bitstream position `p`
(byte `p / 8`, MSB-first within the byte): `(buf[p // 8] >> (7 - p % 8)) & 1`. -/
def bitAt (buf : Nat → Nat) (p : Nat) : Nat :=
  (buf (p / 8) >>> (7 - p % 8)) &&& 1

/-- `get_logical_pixel(x, y)`: read bit `y * W + x` of the logical buffer,
where `W` is the logical row stride in pixels (`self.width` in the source). -/
def getLogicalPixel (W : Nat) (buf : Nat → Nat) (x y : Nat) : Nat :=
  (buf ((y * W + x) / 8) >>> (7 - (y * W + x) % 8)) &&& 1

/-- `set_physical_pixel(x, y, value)`: set/clear bit `y * Wp + x` of the
physical buffer (`Wp` is `EPD_WIDTH` in the source).  `value` is the Nat the
source tests for truthiness; the clear branch `byte &= ~(1 << k)` on a
non-negative byte is exactly `Nat.ldiff byte (1 <<< k)`. -/
def setPhysicalPixel (Wp : Nat) (x y value : Nat) (buf : Nat → Nat) : Nat → Nat :=
  fun j =>
    if j = (y * Wp + x) / 8 then
      if value ≠ 0 then
        buf j ||| (1 <<< (7 - (y * Wp + x) % 8))
      else
        Nat.ldiff (buf j) (1 <<< (7 - (y * Wp + x) % 8))
    else buf j

/-! ## Busy-wait (`wait_until_idle`)

`while self.busy.value() == BUSY: sleep_ms(100)`.  The successive pin
readings are a stream `s : Nat → Nat`; the loop is given `fuel` iterations
and returns the index of the last (idle) reading, or `none` if it is still
spinning when the fuel runs out. -/

/-- One fuel-indexed unfolding of the `wait_until_idle` polling loop,
starting at reading index `k`. -/
def waitUntilIdle (fuel : Nat) (s : Nat → Nat) (k : Nat) : Option Nat :=
  match fuel with
  | 0 => none
  | fuel + 1 => if s k = BUSY then waitUntilIdle fuel s (k + 1) else some k

/-! ## Bus event traces (`_command`, `_data`, `_data_batch`)

Each pin write and SPI write becomes an event.  `wr true bytes` is the SPI
write of a command byte (issued by `_command`), `wr false bytes` a data
write (issued by `_data` / `_data_batch`). -/

/-- A bus event: data/command line change, chip-select change, or SPI write. -/
inductive Ev where
  | dc : Nat → Ev
  | cs : Nat → Ev
  | wr : Bool → List Nat → Ev
deriving DecidableEq, Repr

/-- Trace of `_command(command)` (without the optional data argument):
`dc(0); cs(0); spi.write([command]); cs(1)`. -/
def traceCommand (c : Nat) : List Ev :=
  [Ev.dc 0, Ev.cs 0, Ev.wr true [c], Ev.cs 1]

/-- Trace of `_data(data)` for a single int:
`dc(1); cs(0); spi.write([data]); cs(1)`. -/
def traceDataByte (d : Nat) : List Ev :=
  [Ev.dc 1, Ev.cs 0, Ev.wr false [d], Ev.cs 1]

/-- Trace of `_data(data)` for a byte buffer:
`dc(1); cs(0); spi.write(data); cs(1)`. -/
def traceDataBuf (bs : List Nat) : List Ev :=
  [Ev.dc 1, Ev.cs 0, Ev.wr false bs, Ev.cs 1]

/-- Trace of `_data_batch(data_list)`: returns immediately on an empty
payload, otherwise `dc(1); cs(0); spi.write(bytes); cs(1)`. -/
def traceDataBatch (bs : List Nat) : List Ev :=
  if bs = [] then [] else [Ev.dc 1, Ev.cs 0, Ev.wr false bs, Ev.cs 1]

/-- The SPI write payloads of a trace, in order. -/
def spiPayloads (t : List Ev) : List (List Nat) :=
  t.filterMap (fun e => match e with | Ev.wr _ bs => some bs | _ => none)

/-- Framing invariant checker (from the spec of the Command/Data Framer):
scanning the trace while tracking the chip-select and data/command levels,
every SPI write must happen with chip-select asserted (0) and with the
data/command line at command level (0) for a command byte and at data
level (1) for data bytes; the event immediately after a write must
deassert chip-select (1); and the data/command line must never change
while chip-select is asserted. -/
def framedOk (csLvl dcLvl : Nat) : List Ev → Bool
  | [] => true
  | Ev.dc v :: rest => if csLvl = 0 then false else framedOk csLvl v rest
  | Ev.cs v :: rest => framedOk v dcLvl rest
  | Ev.wr isCmd bs :: rest =>
      (csLvl == 0) && (dcLvl == if isCmd then 0 else 1) &&
      (match rest with | Ev.cs 1 :: _ => true | _ => false) &&
      framedOk csLvl dcLvl rest

/-! ## Batched buffer streaming (`_send_buffer_batched`)

`for i in range(0, len(buffer), batch_size): ... buffer[i:min(i+batch,len)]`. -/

/-- The slices `buffer[i:end]` taken by `_send_buffer_batched`, in loop
order.  Python's `range(0, n, 64)` has `(n + 63) / 64` elements `k * 64`,
and the slice `buffer[i:end]` with `end = min(i + 64, n)` is
`(drop i).take (end - i)`. -/
def sendChunks (buf : List Nat) : List (List Nat) :=
  (List.range ((buf.length + 63) / 64)).map
    (fun k => (buf.drop (k * 64)).take (min (k * 64 + 64) buf.length - k * 64))

/-- Trace of `_send_buffer_batched(buffer)`: one `_data_batch` per slice. -/
def sendBufferBatchedTrace (buf : List Nat) : List Ev :=
  (sendChunks buf).flatMap traceDataBatch

/-! ## Orientation transforms

`_rotate_buffer_90_cw` / `_rotate_buffer_270_cw`, with the three strides
the source draws from the instance — `self.width` (logical width `W`),
`self.height` (logical height `H`) and `EPD_WIDTH` (physical width `Wp`) —
as parameters.  In landscape mode the source has `W = 264`, `H = 176`,
`Wp = 176`.  The nested loops `for ly in range(H): for lx in range(W)`
become nested `List.foldl`s over a physical buffer starting all-zero
(`bytearray(physical_buffer_size)`). -/

/-- `_rotate_buffer_90_cw(logical_buffer)`: for each logical pixel
`(lx, ly)`, `logical_to_physical` gives `new_x = ly`,
`new_y = W - 1 - lx`, and the logical pixel value is written there. -/
def rotate90cw (W H Wp : Nat) (logical : Nat → Nat) : Nat → Nat :=
  (List.range H).foldl
    (fun buf ly =>
      (List.range W).foldl
        (fun buf lx =>
          setPhysicalPixel Wp ly (W - 1 - lx) (getLogicalPixel W logical lx ly) buf)
        buf)
    (fun _ => 0)

/-- `_rotate_buffer_270_cw(logical_buffer)`: for each logical pixel
`(lx, ly)`, `logical_to_physical` gives `new_x = H - 1 - ly`,
`new_y = lx`, and the logical pixel value is written there. -/
def rotate270cw (W H Wp : Nat) (logical : Nat → Nat) : Nat → Nat :=
  (List.range H).foldl
    (fun buf ly =>
      (List.range W).foldl
        (fun buf lx =>
          setPhysicalPixel Wp (H - 1 - ly) lx (getLogicalPixel W logical lx ly) buf)
        buf)
    (fun _ => 0)

/-! ## Orientation 2 (180°) transform from `display_frame`

`flipped_buffer[len - 1 - i] = bit-reversed frame_buffer[i]`. -/

/-- The inner loop of the orientation-2 branch: reverse the bit order of
one byte.  `for bit in range(8): if byte_val & (1 << bit):
flipped_byte |= 1 << (7 - bit)`. -/
def flipByte (byteVal : Nat) : Nat :=
  (List.range 8).foldl
    (fun acc bit =>
      if byteVal &&& (1 <<< bit) ≠ 0 then acc ||| (1 <<< (7 - bit)) else acc)
    0

/-- The orientation-2 buffer transform: a fresh all-zero buffer of `n`
bytes where byte `n - 1 - i` is the bit-reversed byte `i` of the input
(`n = len(frame_buffer)`). -/
def flip180 (n : Nat) (buf : Nat → Nat) : Nat → Nat :=
  (List.range n).foldl
    (fun flipped i => fun j => if j = n - 1 - i then flipByte (buf i) else flipped j)
    (fun _ => 0)

/-! ## `display_frame` as a bus trace -/

/-- A `List Nat` buffer viewed as a byte-indexed function (Python indexing
of the `bytes`/`bytearray` argument). -/
def listToBuf (buf : List Nat) : Nat → Nat := fun i => buf.getD i 0

/-- The physical buffer produced by `_rotate_buffer_90_cw` in landscape
mode (`self.width = 264`, `self.height = 176`), as the list of its
`176 * 264 / 8 = 5808` bytes. -/
def rotate90List (buf : List Nat) : List Nat :=
  (List.range 5808).map (rotate90cw 264 176 176 (listToBuf buf))

/-- The physical buffer produced by `_rotate_buffer_270_cw` in landscape
mode, as the list of its `5808` bytes. -/
def rotate270List (buf : List Nat) : List Nat :=
  (List.range 5808).map (rotate270cw 264 176 176 (listToBuf buf))

/-- The orientation-2 flipped buffer as a list
(`flipped_buffer = bytearray(len(frame_buffer))`, then filled). -/
def flip180List (buf : List Nat) : List Nat :=
  (List.range buf.length).map (flip180 buf.length (listToBuf buf))

/-- The trace of the clear-to-white pre-pass loop in `display_frame`:
`for i in range(0, len(frame_buffer)): self._data(0xFF)`. -/
def prePassTrace (n : Nat) : List Ev :=
  (List.range n).flatMap (fun _ => traceDataByte 0xFF)

/-- Bus trace of `display_frame(frame_buffer)` at orientation `o`:
write-RAM command `0x24` and a clear-to-white pre-pass, RAM X counter to
`0x00`, RAM Y counter to `0xB7, 0x01`, write-RAM command `0x24`, the
orientation-dependent buffer streamed in batches, then display update
control `0x22/0xC7` and master activation `0x20`.  The `if/elif` chain
tests `o == 0`, `o == 2`, `o == 1`, `o == 3` in that order and streams
nothing for any other value. -/
def displayFrameTrace (o : Nat) (buf : List Nat) : List Ev :=
  traceCommand 0x24 ++ prePassTrace buf.length ++
  traceCommand 0x4E ++ traceDataByte 0x00 ++
  traceCommand 0x4F ++ traceDataByte 0xB7 ++ traceDataByte 0x01 ++
  traceCommand 0x24 ++
  (if o = 0 then sendBufferBatchedTrace buf
   else if o = 2 then sendBufferBatchedTrace (flip180List buf)
   else if o = 1 then sendBufferBatchedTrace (rotate90List buf)
   else if o = 3 then sendBufferBatchedTrace (rotate270List buf)
   else []) ++
  traceCommand 0x22 ++ traceDataByte 0xC7 ++ traceCommand 0x20

/-! ## BMP loading (`_load_bmp`) and drawing (`draw_bmp`)

The file is a byte list; `f.read` returning short data on a short file is
`take`.  Exceptions (`ValueError`, `struct.error`) are `Except.error`. -/

/-- `struct.unpack("<I", b)[0]`: little-endian 32-bit word; raises
(`struct.error`) unless exactly 4 bytes are supplied. -/
def unpackLE32 (l : List Nat) : Except String Nat :=
  if l.length = 4 then
    Except.ok (l.getD 0 0 + 256 * l.getD 1 0 + 65536 * l.getD 2 0 + 16777216 * l.getD 3 0)
  else Except.error "struct error"

/-- `struct.unpack("<H", b)[0]`: little-endian 16-bit word; raises unless
exactly 2 bytes are supplied. -/
def unpackLE16 (l : List Nat) : Except String Nat :=
  if l.length = 2 then Except.ok (l.getD 0 0 + 256 * l.getD 1 0)
  else Except.error "struct error"

/-- The row-copy loops of `_load_bmp`: iterating `t = 0, 1, ...` (so that
`y = height - 1 - t` runs bottom-to-top), row `t` is the `row_size` bytes
read at `pixel_offset + t * row_size`, and for `x_byte < fb_width_bytes`
with `x_byte < len(row_data)`, `fb_data[y * fb_width_bytes + x_byte] =
row_data[x_byte]`. -/
def loadBmpRows (file : List Nat) (pixelOffset rowSize fbw height : Nat) : List Nat :=
  (List.range height).foldl
    (fun fb t =>
      (List.range fbw).foldl
        (fun fb xb =>
          if xb < ((file.drop (pixelOffset + t * rowSize)).take rowSize).length then
            fb.set ((height - 1 - t) * fbw + xb)
              (((file.drop (pixelOffset + t * rowSize)).take rowSize).getD xb 0)
          else fb)
        fb)
    (List.replicate (fbw * height) 0)

/-- `_load_bmp(filename)` on the file's bytes: returns
`(width, height, fb_data)` or the raised error.  `header` is
`file.take 14`, the DIB header is `(file.drop 14).take 40`, the row size
is `((width + 31) / 32) * 4` and the frame-buffer row width is
`(width + 7) / 8`, all written inline. -/
def loadBmp (file : List Nat) : Except String (Nat × Nat × List Nat) :=
  if (file.take 14).take 2 ≠ [0x42, 0x4D] then Except.error "Not a BMP file"
  else
    match unpackLE32 (((file.take 14).drop 10).take 4) with
    | Except.error e => Except.error e
    | Except.ok pixelOffset =>
      match unpackLE32 ((((file.drop 14).take 40).drop 4).take 4) with
      | Except.error e => Except.error e
      | Except.ok width =>
        match unpackLE32 ((((file.drop 14).take 40).drop 8).take 4) with
        | Except.error e => Except.error e
        | Except.ok height =>
          match unpackLE16 ((((file.drop 14).take 40).drop 14).take 2) with
          | Except.error e => Except.error e
          | Except.ok bitsPerPixel =>
            if bitsPerPixel ≠ 1 then Except.error "Not a 1-bit BMP"
            else Except.ok (width, height,
              loadBmpRows file pixelOffset (((width + 31) / 32) * 4) ((width + 7) / 8) height)

/-- MicroPython `FrameBuffer` MONO_HLSB bit stride: the constructor rounds
the stride up to a multiple of 8 bits. -/
def fbStride (w : Nat) : Nat := ((w + 7) / 8) * 8

/-- MONO_HLSB `pixel(x, y)` read:
`(buf[(x + y*stride) >> 3] >> (7 - (x & 7))) & 1`. -/
def fbGetPixel (data : List Nat) (w : Nat) (x y : Nat) : Nat :=
  (data.getD ((x + y * fbStride w) >>> 3) 0 >>> (7 - (x &&& 7))) &&& 1

/-- MONO_HLSB `pixel(x, y, c)` write with the FrameBuffer's bounds check
(out-of-range coordinates are a no-op). -/
def fbSetPixel (data : List Nat) (w h : Nat) (x y : Int) (c : Nat) : List Nat :=
  if 0 ≤ x ∧ x < (w : Int) ∧ 0 ≤ y ∧ y < (h : Int) then
    let xn := x.toNat
    let yn := y.toNat
    let idx := (xn + yn * fbStride w) >>> 3
    if c ≠ 0 then data.set idx (data.getD idx 0 ||| (1 <<< (7 - (xn &&& 7))))
    else data.set idx (Nat.ldiff (data.getD idx 0) (1 <<< (7 - (xn &&& 7))))
  else data

/-- The blit loops of `draw_bmp`: `for by in range(bmp_height): for bx in
range(bmp_width): self.framebuf.pixel(x + bx, y + by, bmp_fb.pixel(bx, by))`. -/
def blitBmp (W H : Nat) (fb : List Nat) (bdata : List Nat) (bw bh : Nat)
    (x y : Int) : List Nat :=
  (List.range bh).foldl
    (fun fb (yb : Nat) =>
      (List.range bw).foldl
        (fun fb (bx : Nat) =>
          fbSetPixel fb W H (x + (bx : Int)) (y + (yb : Int)) (fbGetPixel bdata bw bx yb))
        fb)
    fb

/-- `draw_bmp(filename, x, y)` over the file-system lookup result
(`none` = missing file, raising `OSError`).  The surrounding
`try/except` turns every raised error into `False`; the bounds check
rejects placements outside the logical `W × H` buffer before touching the
frame buffer.  Returns the success flag and the (possibly updated) frame
buffer. -/
def drawBmp (W H : Nat) (fb : List Nat) (file : Option (List Nat)) (x y : Int) :
    Bool × List Nat :=
  match (match file with
         | none => Except.error "ENOENT"
         | some bytes => loadBmp bytes) with
  | Except.error _ => (false, fb)
  | Except.ok (bw, bh, bdata) =>
    if x < 0 ∨ y < 0 ∨ x + bw > (W : Int) ∨ y + bh > (H : Int) then (false, fb)
    else (true, blitBmp W H fb bdata bw bh x y)

/-! ## Concrete sample files (used by witnesses) -/

/-- A minimal well-formed 1-bit BMP: 8×1 pixels, pixel data (one padded
row `AA 00 00 00`) at offset 54, after the 14-byte header and 40-byte DIB. -/
def sampleBmp : List Nat :=
  [0x42, 0x4D, 0, 0, 0, 0, 0, 0, 0, 0, 54, 0, 0, 0] ++
  ([40, 0, 0, 0] ++ [8, 0, 0, 0] ++ [1, 0, 0, 0] ++ [1, 0] ++ [1, 0] ++
    List.replicate 24 0) ++
  [0xAA, 0, 0, 0]

/-- The same file with the bits-per-pixel field set to 24. -/
def sampleBmp24 : List Nat :=
  [0x42, 0x4D, 0, 0, 0, 0, 0, 0, 0, 0, 54, 0, 0, 0] ++
  ([40, 0, 0, 0] ++ [8, 0, 0, 0] ++ [1, 0, 0, 0] ++ [1, 0] ++ [24, 0] ++
    List.replicate 24 0) ++
  [0xAA, 0, 0, 0]

/-! ## Theorems -/

/-- `(n >>> k) &&& 1` is the indicator of bit `k` of `n`. -/
theorem shiftRight_and_one (n k : Nat) :
    (n >>> k) &&& 1 = if n.testBit k then 1 else 0 := by
  rw [Nat.and_one_is_mod, Nat.shiftRight_eq_div_pow, Nat.testBit_to_div_mod]
  rcases Nat.mod_two_eq_zero_or_one (n / 2 ^ k) with h | h <;> simp [h]

/-- C4 helper: the busy-wait loop spins while the pin reads `BUSY`. -/
theorem waitUntilIdle_none (s : Nat → Nat) (hs : ∀ n, s n = 0) :
    ∀ fuel k, waitUntilIdle fuel s k = none := by
  intro fuel
  induction fuel with
  | zero => intro k; rfl
  | succ fuel ih =>
      intro k
      simp only [waitUntilIdle, hs k, BUSY, if_pos rfl]
      exact ih (k + 1)

/-- C4 helper: if the busy-wait loop returns index `n`, reading `n` was
not at the `BUSY` level. -/
theorem waitUntilIdle_some (s : Nat → Nat) :
    ∀ fuel k n, waitUntilIdle fuel s k = some n → s n ≠ BUSY := by
  intro fuel
  induction fuel with
  | zero => intro k n h; exact absurd h (by simp [waitUntilIdle])
  | succ fuel ih =>
      intro k n h
      by_cases hk : s k = BUSY
      · exact ih (k + 1) n (by simpa [waitUntilIdle, hk] using h)
      · have : k = n := by simpa [waitUntilIdle, hk] using h
        exact this ▸ hk

/-- C4: `wait_until_idle` returns only after the busy input has been
observed off the asserted (low, `BUSY = 0`) level: if every reading is 0
the loop never returns (for any amount of fuel), and whenever it returns,
the last reading taken was not 0 — i.e. idle (1) for a binary pin.  The
loop has no timeout path. -/
theorem wait_until_idle_spec (s : Nat → Nat) :
    ((∀ n, s n = 0) → ∀ fuel k, waitUntilIdle fuel s k = none) ∧
    (∀ fuel k n, waitUntilIdle fuel s k = some n →
      s n ≠ 0 ∧ ((∀ m, s m ≤ 1) → s n = 1)) := by
  refine ⟨fun hs => waitUntilIdle_none s hs, fun fuel k n h => ?_⟩
  have hne : s n ≠ 0 := waitUntilIdle_some s fuel k n h
  exact ⟨hne, fun hb => by have := hb n; omega⟩

/-- C4 witness: an always-busy pin never lets the wait return; a pin that
reads idle at step 2 makes the wait return with an idle last reading. -/
theorem wait_until_idle_spec_witness :
    waitUntilIdle 5 (fun _ => 0) 0 = none ∧
    ((fun n : Nat => if n = 2 then 1 else 0) 2 ≠ 0 ∧
      ((∀ m, (fun n : Nat => if n = 2 then 1 else 0) m ≤ 1) →
        (fun n : Nat => if n = 2 then 1 else 0) 2 = 1)) :=
  ⟨(wait_until_idle_spec (fun _ => 0)).1 (fun _ => rfl) 5 0,
   (wait_until_idle_spec (fun n => if n = 2 then 1 else 0)).2 5 0 2 (by decide)⟩

/-- C6: every call to `_command`, `_data` (single byte or buffer) and
`_data_batch` — and a `_command` chained with data — satisfies the framing
invariant: starting from chip-select deasserted (1) and any data/command
level, each SPI write happens with chip-select asserted and the
data/command line at command level (0) for the command byte and data
level (1) for data bytes, the line never changes mid-transfer, and
chip-select is deasserted immediately after the transfer. -/
theorem command_data_framing (c d dc0 : Nat) (bs l : List Nat) :
    framedOk 1 dc0 (traceCommand c) = true ∧
    framedOk 1 dc0 (traceDataByte d) = true ∧
    framedOk 1 dc0 (traceDataBuf bs) = true ∧
    framedOk 1 dc0 (traceDataBatch l) = true ∧
    framedOk 1 dc0 (traceCommand c ++ traceDataByte d) = true := by
  refine ⟨rfl, rfl, rfl, ?_, rfl⟩
  by_cases hl : l = [] <;> simp [traceDataBatch, hl, framedOk]

/-- C5 helper: `sendChunks` of a non-empty buffer is the first 64 bytes
followed by the chunks of the rest. -/
theorem sendChunks_cons (buf : List Nat) (h : buf ≠ []) :
    sendChunks buf = buf.take 64 :: sendChunks (buf.drop 64) := by
  have hlen : 1 ≤ buf.length := List.length_pos.mpr h
  have hdroplen : (buf.drop 64).length = buf.length - 64 := List.length_drop 64 buf
  have hcount : (buf.length + 63) / 64 = ((buf.length - 64 + 63) / 64) + 1 := by omega
  rw [sendChunks, hcount, List.range_succ_eq_map]
  rw [List.map_cons, List.map_map]
  congr 1
  · show (buf.drop (0 * 64)).take (min (0 * 64 + 64) buf.length - 0 * 64) = buf.take 64
    simp only [Nat.zero_mul, List.drop_zero, Nat.sub_zero, Nat.zero_add]
    exact List.take_eq_take.mpr (by omega)
  · rw [sendChunks, hdroplen]
    apply List.map_congr_left
    intro k hk
    have hk2 : k < (buf.length - 64 + 63) / 64 := List.mem_range.mp hk
    show (buf.drop ((k + 1) * 64)).take (min ((k + 1) * 64 + 64) buf.length - (k + 1) * 64)
      = ((buf.drop 64).drop (k * 64)).take (min (k * 64 + 64) (buf.length - 64) - k * 64)
    rw [List.drop_drop, show 64 + k * 64 = (k + 1) * 64 by ring]
    apply List.take_eq_take.mpr
    rw [List.length_drop]
    omega

/-- C5 helper: the concatenation of the loop's slices is the buffer,
proved by induction on a bound on the number of chunks. -/
theorem sendChunks_flatten_aux (m : Nat) :
    ∀ buf : List Nat, buf.length ≤ 64 * m → (sendChunks buf).flatten = buf := by
  induction m with
  | zero =>
      intro buf h
      have : buf = [] := List.eq_nil_of_length_eq_zero (by omega)
      subst this
      rfl
  | succ m ih =>
      intro buf h
      by_cases hb : buf = []
      · subst hb; rfl
      · rw [sendChunks_cons buf hb, List.flatten_cons,
          ih (buf.drop 64) (by rw [List.length_drop]; omega),
          List.take_append_drop]

/-- The SPI payloads of a concatenated trace. -/
theorem spiPayloads_append (t₁ t₂ : List Ev) :
    spiPayloads (t₁ ++ t₂) = spiPayloads t₁ ++ spiPayloads t₂ :=
  List.filterMap_append t₁ t₂ _

/-- C5 helper: the SPI payloads of the `_data_batch` calls concatenate to
the same bytes as the chunk list itself. -/
theorem spiPayloads_flatMap_batch (l : List (List Nat)) :
    (spiPayloads (l.flatMap traceDataBatch)).flatten = l.flatten := by
  induction l with
  | nil => rfl
  | cons c l ih =>
      rw [List.flatMap_cons, spiPayloads_append, List.flatten_append, ih, List.flatten_cons]
      by_cases hc : c = [] <;> simp [traceDataBatch, hc, spiPayloads]

/-- C5: streaming a buffer through `_send_buffer_batched` in fixed-size
batches transmits exactly the buffer: the concatenation of the SPI write
payloads, in order, equals the input byte-for-byte, for every buffer
length (including the empty buffer and lengths not divisible by 64). -/
theorem send_buffer_batched_preserves (buf : List Nat) :
    (spiPayloads (sendBufferBatchedTrace buf)).flatten = buf := by
  rw [sendBufferBatchedTrace, spiPayloads_flatMap_batch]
  exact sendChunks_flatten_aux buf.length buf (by omega)

/-- C9 helper: the payloads of the clear-to-white pre-pass loop are `n`
separate one-byte `0xFF` transfers. -/
theorem spiPayloads_prePass (n : Nat) :
    spiPayloads (prePassTrace n) = List.replicate n [0xFF] := by
  induction n with
  | zero => rfl
  | succ n ih =>
      rw [prePassTrace, List.range_succ, List.flatMap_append, spiPayloads_append]
      rw [show spiPayloads ((List.range n).flatMap fun _ => traceDataByte 0xFF)
            = List.replicate n [0xFF] from ih]
      rw [List.replicate_succ']
      rfl

/-- The payload list of a whole `display_frame` run: write-RAM `0x24`,
the `0xFF` pre-pass, the RAM counter programming, write-RAM `0x24`, the
orientation-dependent frame bytes, then `0x22 / 0xC7 / 0x20`. -/
theorem spiPayloads_displayFrameTrace (o : Nat) (buf : List Nat) :
    spiPayloads (displayFrameTrace o buf) =
      [0x24] :: List.replicate buf.length [0xFF] ++
      ([[0x4E], [0x00], [0x4F], [0xB7], [0x01], [0x24]] ++
        spiPayloads
          (if o = 0 then sendBufferBatchedTrace buf
           else if o = 2 then sendBufferBatchedTrace (flip180List buf)
           else if o = 1 then sendBufferBatchedTrace (rotate90List buf)
           else if o = 3 then sendBufferBatchedTrace (rotate270List buf)
           else []) ++
        [[0x22], [0xC7], [0x20]]) := by
  rw [displayFrameTrace]
  repeat rw [spiPayloads_append]
  rw [spiPayloads_prePass]
  simp [spiPayloads, traceCommand, traceDataByte, List.filterMap_cons, List.append_assoc]

/-- C9: before programming the RAM address counters and streaming the
frame, `display_frame` first issues the write-BW-RAM command `0x24` and
transmits exactly `len(frame_buffer)` separate one-byte data transfers of
`0xFF` — the clear-to-white pre-pass — for every orientation and every
frame buffer; the transfer right after the pre-pass is the `0x4E`
set-RAM-X-counter command. -/
theorem display_frame_prepass (o : Nat) (buf : List Nat) :
    (spiPayloads (displayFrameTrace o buf)).take (1 + buf.length) =
      [0x24] :: List.replicate buf.length [0xFF] ∧
    (spiPayloads (displayFrameTrace o buf))[1 + buf.length]? = some [0x4E] := by
  rw [spiPayloads_displayFrameTrace]
  have hlen : ([0x24] :: List.replicate buf.length [0xFF] : List (List Nat)).length
      = 1 + buf.length := by
    rw [List.length_cons, List.length_replicate]; omega
  rw [show ([0x24] :: List.replicate buf.length [0xFF] ++
      ([[0x4E], [0x00], [0x4F], [0xB7], [0x01], [0x24]] ++
        spiPayloads _ ++ [[0x22], [0xC7], [0x20]]) : List (List Nat))
      = ([0x24] :: List.replicate buf.length [0xFF]) ++
      ([[0x4E], [0x00], [0x4F], [0xB7], [0x01], [0x24]] ++
        spiPayloads _ ++ [[0x22], [0xC7], [0x20]]) from rfl]
  constructor
  · rw [List.take_left' hlen]
  · rw [List.getElem?_append_right (by omega), hlen, Nat.sub_self]
    rfl

/-- C1 (amended): after the pre-pass, `display_frame` programs the RAM X
address counter to `0x00` and the RAM Y address counter with the two data
bytes `0xB7` then `0x01` — the little-endian value `0x01B7 = 439`, not
`native_height - 1` — for every orientation and frame buffer. -/
theorem display_frame_counter_writes (o : Nat) (buf : List Nat) :
    ((spiPayloads (displayFrameTrace o buf)).drop (1 + buf.length)).take 5 =
      [[0x4E], [0x00], [0x4F], [0xB7], [0x01]] ∧
    0xB7 + 256 * 0x01 = 439 := by
  rw [spiPayloads_displayFrameTrace]
  have hlen : ([0x24] :: List.replicate buf.length [0xFF] : List (List Nat)).length
      = 1 + buf.length := by
    rw [List.length_cons, List.length_replicate]; omega
  refine ⟨?_, rfl⟩
  rw [show ([0x24] :: List.replicate buf.length [0xFF] ++
      ([[0x4E], [0x00], [0x4F], [0xB7], [0x01], [0x24]] ++
        spiPayloads _ ++ [[0x22], [0xC7], [0x20]]) : List (List Nat))
      = ([0x24] :: List.replicate buf.length [0xFF]) ++
      ([[0x4E], [0x00], [0x4F], [0xB7], [0x01], [0x24]] ++
        spiPayloads _ ++ [[0x22], [0xC7], [0x20]]) from rfl]
  rw [List.drop_left' hlen]
  rfl

/-- C1 counterexample: on a concrete `display_frame` invocation
(orientation 0, empty frame buffer) the set-RAM-Y-counter command `0x4F`
is followed by the data bytes `0xB7` and `0x01`, which little-endian
encode `439`, not `EPD_HEIGHT - 1 = 263` as the claim states. -/
theorem display_frame_ycounter_counterexample :
    (spiPayloads (displayFrameTrace 0 []))[3]? = some [0x4F] ∧
    (spiPayloads (displayFrameTrace 0 []))[4]? = some [0xB7] ∧
    (spiPayloads (displayFrameTrace 0 []))[5]? = some [0x01] ∧
    0xB7 + 256 * 0x01 ≠ EPD_HEIGHT - 1 := by
  refine ⟨rfl, rfl, rfl, by decide⟩

/-- C8 helper: the slice handed to the bits-per-pixel `struct.unpack` is
the slice of file bytes 28–29. -/
theorem bpp_slice_eq (file : List Nat) :
    ((((file.drop 14).take 40).drop 14).take 2) = (file.drop 28).take 2 := by
  rw [List.drop_take, List.drop_drop, List.take_take]
  norm_num

/-- C8: `_load_bmp` rejects any input whose first two bytes are not
`"BM"` with the not-a-BMP error — an outcome fixed by those two bytes
alone, before the DIB header is consulted; rejects any input long enough
to carry a DIB header whose bits-per-pixel field (file bytes 28–29,
little-endian) is not 1 with the not-1-bit error; and succeeds only when
the magic is valid and that field equals 1. -/
theorem load_bmp_validation (file : List Nat) :
    (file.take 2 ≠ [0x42, 0x4D] → loadBmp file = Except.error "Not a BMP file") ∧
    (file.take 2 = [0x42, 0x4D] → 30 ≤ file.length →
      file.getD 28 0 + 256 * file.getD 29 0 ≠ 1 →
      loadBmp file = Except.error "Not a 1-bit BMP") ∧
    (∀ w h d, loadBmp file = Except.ok (w, h, d) →
      file.take 2 = [0x42, 0x4D] ∧ file.getD 28 0 + 256 * file.getD 29 0 = 1) := by
  have hmagic : (file.take 14).take 2 = file.take 2 := by
    rw [List.take_take]
    norm_num
  have hget0 : ((file.drop 28).take 2).getD 0 0 = file.getD 28 0 := by
    rw [List.getD_eq_getElem?_getD, List.getD_eq_getElem?_getD, List.getElem?_take,
      if_pos (by omega : (0 : Nat) < 2), List.getElem?_drop]
  have hget1 : ((file.drop 28).take 2).getD 1 0 = file.getD 29 0 := by
    rw [List.getD_eq_getElem?_getD, List.getD_eq_getElem?_getD, List.getElem?_take,
      if_pos (by omega : (1 : Nat) < 2), List.getElem?_drop]
  refine ⟨?_, ?_, ?_⟩
  · intro h
    rw [loadBmp, if_pos]
    rw [hmagic]
    exact h
  · intro hm hlen hbpp
    rw [loadBmp, if_neg (by rw [hmagic]; exact fun hc => hc hm)]
    rw [show unpackLE32 (((file.take 14).drop 10).take 4)
        = Except.ok ((((file.take 14).drop 10).take 4).getD 0 0
            + 256 * (((file.take 14).drop 10).take 4).getD 1 0
            + 65536 * (((file.take 14).drop 10).take 4).getD 2 0
            + 16777216 * (((file.take 14).drop 10).take 4).getD 3 0) by
      rw [unpackLE32, if_pos]
      rw [List.length_take, List.length_drop, List.length_take]
      omega]
    rw [show unpackLE32 ((((file.drop 14).take 40).drop 4).take 4)
        = Except.ok (((((file.drop 14).take 40).drop 4).take 4).getD 0 0
            + 256 * ((((file.drop 14).take 40).drop 4).take 4).getD 1 0
            + 65536 * ((((file.drop 14).take 40).drop 4).take 4).getD 2 0
            + 16777216 * ((((file.drop 14).take 40).drop 4).take 4).getD 3 0) by
      rw [unpackLE32, if_pos]
      rw [List.length_take, List.length_drop, List.length_take, List.length_drop]
      omega]
    rw [show unpackLE32 ((((file.drop 14).take 40).drop 8).take 4)
        = Except.ok (((((file.drop 14).take 40).drop 8).take 4).getD 0 0
            + 256 * ((((file.drop 14).take 40).drop 8).take 4).getD 1 0
            + 65536 * ((((file.drop 14).take 40).drop 8).take 4).getD 2 0
            + 16777216 * ((((file.drop 14).take 40).drop 8).take 4).getD 3 0) by
      rw [unpackLE32, if_pos]
      rw [List.length_take, List.length_drop, List.length_take, List.length_drop]
      omega]
    rw [show unpackLE16 ((((file.drop 14).take 40).drop 14).take 2)
        = Except.ok (file.getD 28 0 + 256 * file.getD 29 0) by
      rw [bpp_slice_eq, unpackLE16, if_pos]
      · rw [hget0, hget1]
      · rw [List.length_take, List.length_drop]
        omega]
    simp only [if_pos hbpp]
  · intro w h d hok
    by_cases hm : file.take 2 = [0x42, 0x4D]
    · refine ⟨hm, ?_⟩
      rw [loadBmp, if_neg (by rw [hmagic]; exact fun hc => hc hm)] at hok
      rcases h1 : unpackLE32 (((file.take 14).drop 10).take 4) with e | px
      · rw [h1] at hok; exact absurd hok (by simp)
      rw [h1] at hok
      rcases h2 : unpackLE32 ((((file.drop 14).take 40).drop 4).take 4) with e | wv
      · rw [h2] at hok; exact absurd hok (by simp)
      rw [h2] at hok
      rcases h3 : unpackLE32 ((((file.drop 14).take 40).drop 8).take 4) with e | hv
      · rw [h3] at hok; exact absurd hok (by simp)
      rw [h3] at hok
      rcases h4 : unpackLE16 ((((file.drop 14).take 40).drop 14).take 2) with e | bpp
      · rw [h4] at hok; exact absurd hok (by simp)
      rw [h4] at hok
      by_cases hbpp : bpp ≠ 1
      · simp only [if_pos hbpp] at hok; exact absurd hok (by simp)
      · have hbpp1 : bpp = 1 := by omega
        rw [bpp_slice_eq, unpackLE16] at h4
        by_cases hslen : ((file.drop 28).take 2).length = 2
        · rw [if_pos hslen] at h4
          have : ((file.drop 28).take 2).getD 0 0 + 256 * ((file.drop 28).take 2).getD 1 0
              = bpp := by
            exact Except.ok.inj h4
          rw [hget0, hget1] at this
          omega
        · rw [if_neg hslen] at h4
          exact absurd h4 (by simp)
    · rw [loadBmp, if_pos (by rw [hmagic]; exact hm)] at hok
      exact absurd hok (by simp)

/-- C8 witness: a file without the magic is rejected as not a BMP; a
24-bpp file is rejected as not 1-bit; the sample 1-bit file loads and
indeed has a valid magic and a bits-per-pixel field of 1. -/
theorem load_bmp_validation_witness :
    loadBmp [1, 2, 3] = Except.error "Not a BMP file" ∧
    loadBmp sampleBmp24 = Except.error "Not a 1-bit BMP" ∧
    (sampleBmp.take 2 = [0x42, 0x4D] ∧
      sampleBmp.getD 28 0 + 256 * sampleBmp.getD 29 0 = 1) :=
  ⟨(load_bmp_validation [1, 2, 3]).1 (by decide),
   (load_bmp_validation sampleBmp24).2.1 (by decide) (by decide) (by decide),
   (load_bmp_validation sampleBmp).2.2 8 1 [0xAA] (by rfl)⟩

/-- C7: whenever the BMP loads with dimensions `bw × bh` but the
requested placement `(x, y)` violates a bound (`x < 0`, `y < 0`,
`x + bw > W` or `y + bh > H` against the logical dimensions), `draw_bmp`
returns `False` and leaves the logical frame buffer unchanged (and, as in
every path of `draw_bmp`, performs no bus I/O). -/
theorem draw_bmp_oob (W H : Nat) (fb : List Nat) (bytes : List Nat) (x y : Int)
    (bw bh : Nat) (bdata : List Nat)
    (hload : loadBmp bytes = Except.ok (bw, bh, bdata))
    (hoob : x < 0 ∨ y < 0 ∨ x + bw > (W : Int) ∨ y + bh > (H : Int)) :
    drawBmp W H fb (some bytes) x y = (false, fb) := by
  rw [drawBmp, hload]
  simp only [if_pos hoob]

/-- C7 witness: placing the loaded 8×1 sample at `x = 200` exceeds
`W = 176`; `draw_bmp` returns `False` with the frame buffer intact. -/
theorem draw_bmp_oob_witness :
    loadBmp sampleBmp = Except.ok (8, 1, [0xAA]) ∧
    ((200 : Int) < 0 ∨ (0 : Int) < 0 ∨ (200 : Int) + (8 : Nat) > ((176 : Nat) : Int) ∨
      (0 : Int) + (1 : Nat) > ((264 : Nat) : Int)) ∧
    drawBmp 176 264 [7, 7] (some sampleBmp) 200 0 = (false, [7, 7]) :=
  ⟨by rfl, by decide,
   draw_bmp_oob 176 264 [7, 7] sampleBmp 200 0 8 1 [0xAA] (by rfl) (by decide)⟩

/-- C10: `draw_bmp` never propagates an error: on every input it either
returns `False` with the frame buffer unchanged, or returns `True`; and
it returns `True` exactly when the file exists, decodes as a BMP, and the
placement is in bounds — missing files, bad magic, wrong bit depth and
out-of-bounds placements all collapse to the same `False` outcome. -/
theorem draw_bmp_total (W H : Nat) (fb : List Nat) (file : Option (List Nat)) (x y : Int) :
    (drawBmp W H fb file x y = (false, fb) ∨ (drawBmp W H fb file x y).1 = true) ∧
    ((drawBmp W H fb file x y).1 = true ↔
      ∃ bytes bw bh bdata, file = some bytes ∧ loadBmp bytes = Except.ok (bw, bh, bdata) ∧
        ¬(x < 0 ∨ y < 0 ∨ x + bw > (W : Int) ∨ y + bh > (H : Int))) := by
  rcases file with _ | bytes
  · have hd : drawBmp W H fb none x y = (false, fb) := rfl
    rw [hd]
    refine ⟨Or.inl rfl, ?_⟩
    simp
  · rcases hl : loadBmp bytes with e | r
    · have hd : drawBmp W H fb (some bytes) x y = (false, fb) := by
        rw [drawBmp, hl]
      rw [hd]
      refine ⟨Or.inl rfl, ?_⟩
      simp only [Bool.false_eq_true, false_iff]
      rintro ⟨b, bw, bh, bd, hb, hok, -⟩
      rw [Option.some.injEq] at hb
      rw [← hb, hl] at hok
      exact absurd hok (by simp)
    · rcases r with ⟨bw, bh, bdata⟩
      by_cases hc : x < 0 ∨ y < 0 ∨ x + bw > (W : Int) ∨ y + bh > (H : Int)
      · have hd : drawBmp W H fb (some bytes) x y = (false, fb) := by
          rw [drawBmp, hl]
          simp only [if_pos hc]
        rw [hd]
        refine ⟨Or.inl rfl, ?_⟩
        simp only [Bool.false_eq_true, false_iff]
        rintro ⟨b, bw', bh', bd', hb, hok, hnc⟩
        rw [Option.some.injEq] at hb
        rw [← hb, hl] at hok
        have h1 := Except.ok.inj hok
        have hbw : bw = bw' := congrArg Prod.fst h1
        have hbh : bh = bh' := congrArg Prod.fst (congrArg Prod.snd h1)
        exact hnc (hbw ▸ hbh ▸ hc)
      · have hd : drawBmp W H fb (some bytes) x y
            = (true, blitBmp W H fb bdata bw bh x y) := by
          rw [drawBmp, hl]
          simp only [if_neg hc]
        rw [hd]
        refine ⟨Or.inr rfl, ?_⟩
        simp only [true_iff]
        exact ⟨bytes, bw, bh, bdata, rfl, hl, hc⟩

/-! ## Bit-level characterization of the rotation transforms (C2) -/

/-- `set_physical_pixel` changes exactly bit `y * Wp + x` of the
physical bitstream: reading any bitstream position through `bitAt` gives
the written value at that position and is untouched elsewhere. -/
theorem bitAt_setPhysicalPixel (Wp x y v : Nat) (buf : Nat → Nat) (q : Nat) :
    bitAt (setPhysicalPixel Wp x y v buf) q =
      if q = y * Wp + x then (if v ≠ 0 then 1 else 0) else bitAt buf q := by
  unfold bitAt setPhysicalPixel
  generalize y * Wp + x = p
  by_cases hq : q = p
  · subst hq
    rw [if_pos rfl, if_pos rfl]
    by_cases hv : v ≠ 0
    · rw [if_pos hv, if_pos hv, shiftRight_and_one, Nat.shiftLeft_eq, one_mul,
        Nat.testBit_lor, Nat.testBit_two_pow_self]
      simp
    · rw [if_neg hv, if_neg hv, shiftRight_and_one, Nat.shiftLeft_eq, one_mul,
        Nat.testBit_ldiff, Nat.testBit_two_pow_self]
      simp
  · rw [if_neg hq]
    by_cases hb : q / 8 = p / 8
    · rw [if_pos hb]
      have hne : 7 - p % 8 ≠ 7 - q % 8 := by omega
      by_cases hv : v ≠ 0
      · rw [if_pos hv, shiftRight_and_one, shiftRight_and_one, hb, Nat.shiftLeft_eq, one_mul,
          Nat.testBit_lor, Nat.testBit_two_pow_of_ne hne]
        rw [← hb]
        simp
      · rw [if_neg hv, shiftRight_and_one, shiftRight_and_one, hb, Nat.shiftLeft_eq, one_mul,
          Nat.testBit_ldiff, Nat.testBit_two_pow_of_ne hne]
        rw [← hb]
        simp
    · rw [if_neg hb]

/-- A fold of pixel writes that all miss bitstream position `q` leaves
`bitAt` at `q` unchanged. -/
theorem bitAt_foldl_miss (Wp : Nat) (X Y V : Nat → Nat) (l : List Nat) (buf : Nat → Nat)
    (q : Nat) (h : ∀ a ∈ l, Y a * Wp + X a ≠ q) :
    bitAt (l.foldl (fun b a => setPhysicalPixel Wp (X a) (Y a) (V a) b) buf) q = bitAt buf q := by
  induction l generalizing buf with
  | nil => rfl
  | cons a l ih =>
      rw [List.foldl_cons, ih _ (fun b hb => h b (List.mem_cons_of_mem a hb))]
      rw [bitAt_setPhysicalPixel,
        if_neg (fun hc => h a (List.mem_cons_self a l) hc.symm)]

/-- A fold of pixel writes containing exactly one write at position `q`
(with no later write touching `q`) leaves that write's value at `q`. -/
theorem bitAt_foldl_hit (Wp : Nat) (X Y V : Nat → Nat) (l₁ l₂ : List Nat) (a₀ : Nat)
    (buf : Nat → Nat) (q : Nat) (hhit : Y a₀ * Wp + X a₀ = q)
    (hmiss : ∀ a ∈ l₂, Y a * Wp + X a ≠ q) :
    bitAt ((l₁ ++ a₀ :: l₂).foldl (fun b a => setPhysicalPixel Wp (X a) (Y a) (V a) b) buf) q
      = if V a₀ ≠ 0 then 1 else 0 := by
  rw [List.foldl_append, List.foldl_cons]
  rw [bitAt_foldl_miss Wp X Y V l₂ _ q hmiss]
  rw [bitAt_setPhysicalPixel, if_pos hhit.symm]

/-- Outer-loop version of the miss lemma: all writes of all inner rows
miss `q`. -/
theorem bitAt_outer_miss (Wp W : Nat) (X Y V : Nat → Nat → Nat) (l : List Nat)
    (buf : Nat → Nat) (q : Nat)
    (h : ∀ ly ∈ l, ∀ lx ∈ List.range W, Y lx ly * Wp + X lx ly ≠ q) :
    bitAt (l.foldl (fun b ly => (List.range W).foldl
        (fun b lx => setPhysicalPixel Wp (X lx ly) (Y lx ly) (V lx ly) b) b) buf) q
      = bitAt buf q := by
  induction l generalizing buf with
  | nil => rfl
  | cons ly l ih =>
      rw [List.foldl_cons, ih _ (fun b hb lx hlx => h b (List.mem_cons_of_mem ly hb) lx hlx)]
      exact bitAt_foldl_miss Wp (fun lx => X lx ly) (fun lx => Y lx ly) (fun lx => V lx ly)
        (List.range W) buf q (fun lx hlx => h ly (List.mem_cons_self ly l) lx hlx)

/-- The nested rotation loops write bitstream position `q` exactly once,
at loop indices `(lx₀, ly₀)`; the final buffer holds that pixel value at
`q`. -/
theorem bitAt_doubleFold (Wp W H : Nat) (X Y V : Nat → Nat → Nat) (q lx₀ ly₀ : Nat)
    (init : Nat → Nat) (hlx : lx₀ < W) (hly : ly₀ < H)
    (hq : Y lx₀ ly₀ * Wp + X lx₀ ly₀ = q)
    (huniq : ∀ ly, ly < H → ∀ lx, lx < W → Y lx ly * Wp + X lx ly = q → lx = lx₀ ∧ ly = ly₀) :
    bitAt ((List.range H).foldl (fun b ly => (List.range W).foldl
        (fun b lx => setPhysicalPixel Wp (X lx ly) (Y lx ly) (V lx ly) b) b) init) q
      = if V lx₀ ly₀ ≠ 0 then 1 else 0 := by
  obtain ⟨k, hk⟩ : ∃ k, H = ly₀ + (k + 1) := ⟨H - ly₀ - 1, by omega⟩
  have hrangeH : List.range H = List.range ly₀ ++ (ly₀ + 0) ::
      ((List.range k).map Nat.succ).map (ly₀ + ·) := by
    rw [hk, List.range_add, List.range_succ_eq_map, List.map_cons]
  rw [hrangeH, List.foldl_append, List.foldl_cons]
  rw [bitAt_outer_miss Wp W X Y V _ _ q ?later]
  case later =>
    intro ly hly2 lx hlx2
    simp only [List.mem_map, List.mem_range] at hly2
    obtain ⟨a, ⟨i, hi, rfl⟩, rfl⟩ := hly2
    intro hpos
    have := huniq (ly₀ + i.succ) (by omega) lx (List.mem_range.mp hlx2) hpos
    omega
  obtain ⟨m, hm⟩ : ∃ m, W = lx₀ + (m + 1) := ⟨W - lx₀ - 1, by omega⟩
  have hrangeW : List.range W = List.range lx₀ ++ (lx₀ + 0) ::
      ((List.range m).map Nat.succ).map (lx₀ + ·) := by
    rw [hm, List.range_add, List.range_succ_eq_map, List.map_cons]
  rw [hrangeW]
  have hres := bitAt_foldl_hit Wp (fun lx => X lx (ly₀ + 0)) (fun lx => Y lx (ly₀ + 0))
    (fun lx => V lx (ly₀ + 0)) (List.range lx₀)
    (((List.range m).map Nat.succ).map (lx₀ + ·)) (lx₀ + 0)
    ((List.range ly₀).foldl (fun b ly =>
      (List.range lx₀ ++ (lx₀ + 0) :: ((List.range m).map Nat.succ).map (lx₀ + ·)).foldl
        (fun b lx => setPhysicalPixel Wp (X lx ly) (Y lx ly) (V lx ly) b) b) init) q
    hq ?misslater
  case misslater =>
    intro lx hlx2
    simp only [List.mem_map, List.mem_range] at hlx2
    obtain ⟨a, ⟨i, hi, rfl⟩, rfl⟩ := hlx2
    intro hpos
    have := huniq (ly₀ + 0) (by omega) (lx₀ + i.succ) (by omega) hpos
    omega
  exact hres

/-- C2 helper: the value written by `_rotate_buffer_90_cw` in landscape
mode at each physical bitstream position. -/
theorem rotate90_bitAt (B : Nat → Nat) (q : Nat) (hq : q < 46464) :
    bitAt (rotate90cw 264 176 176 B) q
      = getLogicalPixel 264 B (263 - q / 176) (q % 176) := by
  have h := bitAt_doubleFold 176 264 176 (fun lx ly => ly) (fun lx ly => 264 - 1 - lx)
    (fun lx ly => getLogicalPixel 264 B lx ly) q (263 - q / 176) (q % 176) (fun _ => 0)
    (by omega) (by omega)
    (by show (264 - 1 - (263 - q / 176)) * 176 + q % 176 = q; omega)
    (by intro ly hly2 lx hlx2 hpos
        have hpos2 : (264 - 1 - lx) * 176 + ly = q := hpos
        constructor <;> omega)
  refine Eq.trans h ?_
  show (if getLogicalPixel 264 B (263 - q / 176) (q % 176) ≠ 0 then 1 else 0) = _
  rw [show getLogicalPixel 264 B (263 - q / 176) (q % 176)
      = (B (((q % 176) * 264 + (263 - q / 176)) / 8) >>>
          (7 - ((q % 176) * 264 + (263 - q / 176)) % 8)) &&& 1 from rfl]
  rw [Nat.and_one_is_mod]
  rcases Nat.mod_two_eq_zero_or_one
    (B (((q % 176) * 264 + (263 - q / 176)) / 8) >>>
      (7 - ((q % 176) * 264 + (263 - q / 176)) % 8)) with hpar | hpar <;> simp [hpar]

/-- C2 helper: the value written by `_rotate_buffer_270_cw` applied with
the swapped dimensions (logical 176×264, physical width 264) at each
output bitstream position. -/
theorem rotate270_bitAt (P : Nat → Nat) (q : Nat) (hq : q < 46464) :
    bitAt (rotate270cw 176 264 264 P) q
      = getLogicalPixel 176 P (q / 264) (263 - q % 264) := by
  have h := bitAt_doubleFold 264 176 264 (fun lx ly => 264 - 1 - ly) (fun lx ly => lx)
    (fun lx ly => getLogicalPixel 176 P lx ly) q (q / 264) (263 - q % 264) (fun _ => 0)
    (by omega) (by omega)
    (by show (q / 264) * 264 + (264 - 1 - (263 - q % 264)) = q; omega)
    (by intro ly hly2 lx hlx2 hpos
        have hpos2 : lx * 264 + (264 - 1 - ly) = q := hpos
        constructor <;> omega)
  refine Eq.trans h ?_
  show (if getLogicalPixel 176 P (q / 264) (263 - q % 264) ≠ 0 then 1 else 0) = _
  rw [show getLogicalPixel 176 P (q / 264) (263 - q % 264)
      = (P (((263 - q % 264) * 176 + q / 264) / 8) >>>
          (7 - ((263 - q % 264) * 176 + q / 264) % 8)) &&& 1 from rfl]
  rw [Nat.and_one_is_mod]
  rcases Nat.mod_two_eq_zero_or_one
    (P (((263 - q % 264) * 176 + q / 264) / 8) >>>
      (7 - ((263 - q % 264) * 176 + q / 264) % 8)) with hpar | hpar <;> simp [hpar]

/-- C2: rotating a landscape logical buffer (264×176) 90° clockwise with
`_rotate_buffer_90_cw` and then rotating the resulting physical buffer
270° clockwise with `_rotate_buffer_270_cw` interpreted with the swapped
dimensions (logical 176×264, physical width 264) reproduces the original
buffer bit-for-bit: the two transforms are mutual inverses modulo the
width/height swap. -/
theorem rotate_round_trip (B : Nat → Nat) (q : Nat) (hq : q < 176 * 264) :
    bitAt (rotate270cw 176 264 264 (rotate90cw 264 176 176 B)) q = bitAt B q := by
  have hq' : q < 46464 := by omega
  rw [rotate270_bitAt _ q hq']
  rw [show getLogicalPixel 176 (rotate90cw 264 176 176 B) (q / 264) (263 - q % 264)
      = bitAt (rotate90cw 264 176 176 B) ((263 - q % 264) * 176 + q / 264) from rfl]
  rw [rotate90_bitAt B _ (by omega)]
  rw [show ((263 - q % 264) * 176 + q / 264) / 176 = 263 - q % 264 by omega]
  rw [show ((263 - q % 264) * 176 + q / 264) % 176 = q / 264 by omega]
  rw [show 263 - (263 - q % 264) = q % 264 by omega]
  show bitAt B ((q / 264) * 264 + q % 264) = bitAt B q
  rw [show (q / 264) * 264 + q % 264 = q by omega]

/-- C2 witness: the round trip at a concrete bit position of a concrete
buffer, with the bound discharged. -/
theorem rotate_round_trip_witness :
    (0 : Nat) < 176 * 264 ∧
    bitAt (rotate270cw 176 264 264 (rotate90cw 264 176 176 (fun _ => 0))) 0
      = bitAt (fun _ => 0) 0 :=
  ⟨by decide, rotate_round_trip (fun _ => 0) 0 (by decide)⟩

/-! ## Bit-level characterization of the orientation-2 flip (C3) -/

/-- Bit `k` of the accumulator folded through the bit-reversal loop:
either it was already set, or some processed `bit` with `7 - bit = k` is
set in the source byte. -/
theorem testBit_flipByte_fold (b : Nat) (l : List Nat) (acc k : Nat) :
    (l.foldl (fun acc bit =>
        if b &&& (1 <<< bit) ≠ 0 then acc ||| (1 <<< (7 - bit)) else acc) acc).testBit k
      = (acc.testBit k || l.any (fun bit => decide (7 - bit = k) && b.testBit bit)) := by
  induction l generalizing acc with
  | nil => simp
  | cons a l ih =>
      rw [List.foldl_cons, ih, List.any_cons]
      have hmask : b &&& (1 <<< a) ≠ 0 ↔ b.testBit a = true := by
        rw [Nat.shiftLeft_eq, one_mul, Nat.and_two_pow]
        cases hb : b.testBit a <;> simp [hb]
      by_cases hba : b.testBit a = true
      · rw [if_pos (hmask.mpr hba), hba, Bool.and_true]
        rw [Nat.testBit_lor, Nat.shiftLeft_eq, one_mul, Nat.testBit_two_pow]
        cases h1 : acc.testBit k <;> cases h2 : decide (7 - a = k) <;>
          cases h3 : l.any (fun bit => decide (7 - bit = k) && b.testBit bit) <;> simp [h1, h2, h3]
      · have hba2 : b.testBit a = false := by
          cases hb : b.testBit a
          · rfl
          · exact absurd hb hba
        rw [if_neg (fun hc => hba (hmask.mp hc)), hba2, Bool.and_false, Bool.false_or]

/-- Bit `k < 8` of the bit-reversed byte is bit `7 - k` of the source
byte. -/
theorem testBit_flipByte (b k : Nat) (hk : k < 8) :
    (flipByte b).testBit k = b.testBit (7 - k) := by
  rw [flipByte, testBit_flipByte_fold, Nat.zero_testBit, Bool.false_or]
  rw [show List.range 8 = [0, 1, 2, 3, 4, 5, 6, 7] from rfl]
  simp only [List.any_cons, List.any_nil, Bool.or_false]
  interval_cases k <;> simp

/-- A fold of whole-byte writes that all miss index `j` leaves the
buffer at `j` unchanged. -/
theorem foldl_write_miss (pos val : Nat → Nat) (l : List Nat) (buf : Nat → Nat) (j : Nat)
    (h : ∀ i ∈ l, pos i ≠ j) :
    (l.foldl (fun b i => fun t => if t = pos i then val i else b t) buf) j = buf j := by
  induction l generalizing buf with
  | nil => rfl
  | cons a l ih =>
      rw [List.foldl_cons, ih _ (fun i hi => h i (List.mem_cons_of_mem a hi))]
      show (if j = pos a then val a else buf j) = buf j
      exact if_neg (fun hc => h a (List.mem_cons_self a l) hc.symm)

/-- A fold of whole-byte writes with exactly one write at index `j` (and
no later write there) leaves that write's value at `j`. -/
theorem foldl_write_hit (pos val : Nat → Nat) (l₁ l₂ : List Nat) (i₀ : Nat)
    (buf : Nat → Nat) (j : Nat) (hhit : pos i₀ = j) (hmiss : ∀ i ∈ l₂, pos i ≠ j) :
    ((l₁ ++ i₀ :: l₂).foldl (fun b i => fun t => if t = pos i then val i else b t) buf) j
      = val i₀ := by
  rw [List.foldl_append, List.foldl_cons, foldl_write_miss pos val l₂ _ j hmiss]
  show (if j = pos i₀ then val i₀ else _) = val i₀
  exact if_pos hhit.symm

/-- C3 helper: byte `j < n` of the orientation-2 flipped buffer is the
bit-reversed byte `n - 1 - j` of the source. -/
theorem flip180_byte (n : Nat) (buf : Nat → Nat) (j : Nat) (hj : j < n) :
    flip180 n buf j = flipByte (buf (n - 1 - j)) := by
  obtain ⟨k, hk⟩ : ∃ k, n = (n - 1 - j) + (k + 1) := ⟨j, by omega⟩
  have hrange : List.range n = List.range (n - 1 - j) ++ ((n - 1 - j) + 0) ::
      ((List.range k).map Nat.succ).map ((n - 1 - j) + ·) := by
    rw [hk]
    rw [List.range_add, List.range_succ_eq_map, List.map_cons]
    rw [← hk]
  rw [flip180, hrange]
  have hres := foldl_write_hit (fun i => n - 1 - i) (fun i => flipByte (buf i))
    (List.range (n - 1 - j)) (((List.range k).map Nat.succ).map ((n - 1 - j) + ·))
    ((n - 1 - j) + 0) (fun _ => 0) j
    (by show n - 1 - ((n - 1 - j) + 0) = j; omega) ?misses
  case misses =>
    intro i hi
    simp only [List.mem_map, List.mem_range] at hi
    obtain ⟨a, ⟨t, ht, rfl⟩, rfl⟩ := hi
    show n - 1 - ((n - 1 - j) + t.succ) ≠ j
    omega
  exact hres

/-- C3: for a frame buffer of exactly `176 * 264 / 8 = 5808` bytes, the
orientation-2 transform (reverse the byte order, reverse the bit order in
each byte) maps every pixel `(x, y)` of the logical buffer to
`(175 - x, 263 - y)` of the transformed buffer. -/
theorem orientation2_pixel_map (B : Nat → Nat) (x y : Nat) (hx : x < 176) (hy : y < 264) :
    getLogicalPixel 176 B x y
      = getLogicalPixel 176 (flip180 5808 B) (175 - x) (263 - y) := by
  show bitAt B (y * 176 + x) = bitAt (flip180 5808 B) ((263 - y) * 176 + (175 - x))
  have hqp : (263 - y) * 176 + (175 - x) = 46463 - (y * 176 + x) := by omega
  have hplt : y * 176 + x < 46464 := by omega
  unfold bitAt
  rw [shiftRight_and_one, shiftRight_and_one]
  rw [flip180_byte 5808 B (((263 - y) * 176 + (175 - x)) / 8) (by omega)]
  rw [testBit_flipByte _ _ (by omega)]
  rw [show 5808 - 1 - ((263 - y) * 176 + (175 - x)) / 8 = (y * 176 + x) / 8 by omega]
  rw [show 7 - (7 - ((263 - y) * 176 + (175 - x)) % 8) = 7 - (y * 176 + x) % 8 by omega]

/-- C3 witness: the pixel map at a concrete coordinate of a concrete
buffer, with the coordinate bounds discharged. -/
theorem orientation2_pixel_map_witness :
    (0 : Nat) < 176 ∧ (0 : Nat) < 264 ∧
    getLogicalPixel 176 (fun _ => 0) 0 0
      = getLogicalPixel 176 (flip180 5808 (fun _ => 0)) 175 263 :=
  ⟨by decide, by decide, orientation2_pixel_map (fun _ => 0) 0 0 (by decide) (by decide)⟩

end Waveshare
